import Mathlib

/-!
Verification of the on-demand definition cache of the yalose-flashcards
application: the IndexedDB-backed cache layer (`src/utils/definitionsCache.js`)
and the asynchronous definition-resolution logic of the card component
(`src/components/FlashCard.jsx`).

The JavaScript source is shallowly embedded: each exported cache operation
becomes a pure Lean function over an explicit database state, with the
fallible steps of the underlying storage subsystem (opening the database,
reads, writes, cursors, clears) modelled by explicit Boolean fault
parameters.  Promise resolution and rejection are modelled by `Except`:
a handler that calls `resolve` produces `Except.ok`, a handler that calls
`reject` produces `Except.error`.  The asynchronous resolver in the card
component is embedded as a pure run function over the component state, with
one environment gap per `await` point in which the active word may change.
-/

/-- Database record stored in the `definitions` object store.  The key path
is `wordId`; `cachedAt` is the last-accessed timestamp used for LRU order. -/
structure CacheEntry where
  wordId : String
  definitions : List String
  rae_link : Option String
  cachedAt : Int
  deriving DecidableEq, Repr

/-- Value shape returned to callers of the cache: the definitions list and
the optional external RAE link. -/
structure DefData where
  definitions : List String
  rae_link : Option String
  deriving DecidableEq, Repr

/-- Lifecycle of the module-level `dbPromise` in `definitionsCache.js`:
not yet created, created and rejected, or created and resolved. -/
inductive Conn where
  | unopened
  | failed
  | opened
  deriving DecidableEq, Repr

/-- Process-wide cache state: the cached connection promise outcome and the
durable contents of the object store. -/
structure CacheDB where
  conn : Conn
  store : List CacheEntry
  deriving DecidableEq, Repr

/-- Constant `MAX_ENTRIES` from `definitionsCache.js`. -/
def MAX_ENTRIES : Nat := 1000

/-- Constant `MAX_AGE_DAYS` from `definitionsCache.js`. -/
def MAX_AGE_DAYS : Int := 30

/-- Lookup by primary key, as `store.get(wordId)`. -/
def findEntry (k : String) : List CacheEntry → Option CacheEntry
  | [] => none
  | e :: rest => if e.wordId = k then some e else findEntry k rest

/-- Insert or replace by primary key, as `store.put(entry)` with key path
`wordId`. -/
def putEntry (e : CacheEntry) : List CacheEntry → List CacheEntry
  | [] => [e]
  | x :: rest => if x.wordId = e.wordId then e :: rest else x :: putEntry e rest

/-- Primary keys of the store contents. -/
def storeKeys (l : List CacheEntry) : List String :=
  l.map (fun e => e.wordId)

/-- Order of the `cachedAt` index cursor: ascending `cachedAt`, ties broken
by ascending primary key (IndexedDB index order). -/
def recLe (a b : CacheEntry) : Prop :=
  a.cachedAt < b.cachedAt ∨ (a.cachedAt = b.cachedAt ∧ a.wordId ≤ b.wordId)

instance : DecidableRel recLe := fun a b =>
  inferInstanceAs (Decidable (a.cachedAt < b.cachedAt ∨
    (a.cachedAt = b.cachedAt ∧ a.wordId ≤ b.wordId)))

instance : IsTotal CacheEntry recLe where
  total a b := by
    rcases lt_trichotomy a.cachedAt b.cachedAt with h | h | h
    · exact Or.inl (Or.inl h)
    · rcases le_total a.wordId b.wordId with h2 | h2
      · exact Or.inl (Or.inr ⟨h, h2⟩)
      · exact Or.inr (Or.inr ⟨h.symm, h2⟩)
    · exact Or.inr (Or.inl h)

instance : IsTrans CacheEntry recLe where
  trans a b c hab hbc := by
    rcases hab with h1 | ⟨h1, h1w⟩ <;> rcases hbc with h2 | ⟨h2, h2w⟩
    · exact Or.inl (h1.trans h2)
    · exact Or.inl (h2 ▸ h1)
    · exact Or.inl (h1 ▸ h2)
    · exact Or.inr ⟨h1.trans h2, h1w.trans h2w⟩

/-- Contents of the store in the order produced by a cursor over the
`cachedAt` index, oldest first. -/
def sortByRecency (l : List CacheEntry) : List CacheEntry :=
  l.insertionSort recLe

/-- Embedding of `openDB`: the first call fixes the promise outcome (given
by `openOk`), later calls return the cached promise unchanged. -/
def openDB (openOk : Bool) : Conn → Conn
  | .unopened => if openOk then .opened else .failed
  | c => c

/-- Embedding of `evictIfNeeded`: when the entry count exceeds
`MAX_ENTRIES`, walk the `cachedAt` index cursor from the oldest entry and
delete exactly `count - MAX_ENTRIES` entries. -/
def evictIfNeeded (store : List CacheEntry) : List CacheEntry :=
  let count := store.length
  if count > MAX_ENTRIES then
    let victims := storeKeys ((sortByRecency store).take (count - MAX_ENTRIES))
    store.filter (fun e => decide (e.wordId ∉ victims))
  else store

/-- Embedding of `getCachedDefinition`.  Faults: `openOk` is the outcome of
a first-time database open, `readFail` makes the `get` request error (the
handler resolves `null`), `touchFail` makes the LRU touch write fail (the
handler only warns).  A found entry has its `cachedAt` refreshed to `now`
and written back; the original content is returned either way. -/
def getCachedDefinition (wordId : String) (now : Int)
    (openOk readFail touchFail : Bool) (db : CacheDB) :
    Except Unit (Option DefData) × CacheDB :=
  let conn := openDB openOk db.conn
  match conn with
  | .opened =>
    if readFail then (.ok none, ⟨conn, db.store⟩)
    else
      match findEntry wordId db.store with
      | some e =>
        let touched : CacheEntry := ⟨e.wordId, e.definitions, e.rae_link, now⟩
        let store1 := if touchFail then db.store else putEntry touched db.store
        (.ok (some ⟨e.definitions, e.rae_link⟩), ⟨conn, store1⟩)
      | none => (.ok none, ⟨conn, db.store⟩)
  | c => (.ok none, ⟨c, db.store⟩)

/-- Embedding of `cacheDefinition`: put the entry with `cachedAt := now`,
then run eviction.  A failed open or a failed put resolves with no effect. -/
def cacheDefinition (wordId : String) (data : DefData) (now : Int)
    (openOk writeFail : Bool) (db : CacheDB) :
    Except Unit Unit × CacheDB :=
  let conn := openDB openOk db.conn
  match conn with
  | .opened =>
    if writeFail then (.ok (), ⟨conn, db.store⟩)
    else
      let store1 := putEntry ⟨wordId, data.definitions, data.rae_link, now⟩ db.store
      (.ok (), ⟨conn, evictIfNeeded store1⟩)
  | c => (.ok (), ⟨c, db.store⟩)

/-- Embedding of `clearOldEntries`: delete every entry whose `cachedAt` lies
in the inclusive key range up to `now - maxAgeDays * 86400000` and return
how many were deleted; a failed open or a failed cursor resolves `0`. -/
def clearOldEntries (maxAgeDays : Int) (now : Int)
    (openOk cursorFail : Bool) (db : CacheDB) :
    Except Unit Nat × CacheDB :=
  let conn := openDB openOk db.conn
  match conn with
  | .opened =>
    if cursorFail then (.ok 0, ⟨conn, db.store⟩)
    else
      let cutoffTime := now - maxAgeDays * 86400000
      let deleted := (db.store.filter (fun e => decide (e.cachedAt ≤ cutoffTime))).length
      (.ok deleted, ⟨conn, db.store.filter (fun e => decide (cutoffTime < e.cachedAt))⟩)
  | c => (.ok 0, ⟨c, db.store⟩)

/-- Embedding of `getCacheSize`: the entry count, or `0` on a failed open or
a failed count request. -/
def getCacheSize (openOk countFail : Bool) (db : CacheDB) :
    Except Unit Nat × CacheDB :=
  let conn := openDB openOk db.conn
  match conn with
  | .opened =>
    if countFail then (.ok 0, ⟨conn, db.store⟩)
    else (.ok db.store.length, ⟨conn, db.store⟩)
  | c => (.ok 0, ⟨c, db.store⟩)

/-- Embedding of `clearCache`: a failed open is caught and swallowed, but a
failed `clear` request calls `reject`, so the returned promise rejects. -/
def clearCache (openOk clearFail : Bool) (db : CacheDB) :
    Except Unit Unit × CacheDB :=
  let conn := openDB openOk db.conn
  match conn with
  | .opened =>
    if clearFail then (.error (), ⟨conn, db.store⟩)
    else (.ok (), ⟨conn, []⟩)
  | c => (.ok (), ⟨c, db.store⟩)

/-- Resolution of a promise to `ok`, as a Boolean observation. -/
def exceptOk : Except Unit α → Bool
  | .ok _ => true
  | .error _ => false

/-- UI-visible definition state of the `FlashCard` component, together with
the `currentWordIdRef` used by the staleness checks. -/
structure CompState where
  currentWordId : String
  showDefinitions : Bool
  definitions : Option (List String)
  definitionsLoading : Bool
  definitionsError : Option String
  raeLink : Option String
  deriving DecidableEq, Repr

/-- Word-change effect of the component: record the new word identifier in
the ref and reset all definition state. -/
def resetForWord (w : String) : CompState :=
  ⟨w, false, none, false, none, none⟩

/-- Environment activity during one `await`: either nothing, or the active
word changes (running the word-change reset effect). -/
def applyGap (g : Option String) (s : CompState) : CompState :=
  match g with
  | none => s
  | some w => resetForWord w

/-- The `finally` block of `fetchDefinitions`: clear the loading flag only
when still on the requested word. -/
def runFinally (requested : String) (s : CompState) : CompState :=
  if s.currentWordId = requested then { s with definitionsLoading := false } else s

/-- The `catch` block of `fetchDefinitions`: record the error message only
when still on the requested word. -/
def runCatch (requested : String) (msg : String) (s : CompState) : CompState :=
  if s.currentWordId = requested then { s with definitionsError := some msg } else s

/-- Embedding of `isPlaceholder` from `FlashCard.jsx`: an empty list, or a
single entry equal to the literal sentinel. -/
def isPlaceholder : List String → Bool
  | [] => true
  | [d] => d == "Definition pending..."
  | _ => false

/-- Outcome of the remote `/api/definition` request: a parsed 2xx body, a
non-2xx status, or a rejected fetch carrying an error message. -/
inductive ApiResponse where
  | ok (definitions : List String) (rae_link : Option String)
  | httpError (status : Nat)
  | networkError (msg : String)
  deriving DecidableEq, Repr

/-- Environment of one `fetchDefinitions` run: the storage fault switches
used by the cache calls it makes, the word-change activity at each of its
four `await` points, and the remote response. -/
structure FetchEnv where
  openOk : Bool
  readFail : Bool
  touchFail : Bool
  writeFail : Bool
  gap1 : Option String
  gap2 : Option String
  gap3 : Option String
  gap4 : Option String
  api : ApiResponse
  deriving DecidableEq, Repr

/-- Result of one `fetchDefinitions` run: final component state, final cache
state, and whether the cache lookup and the remote request were issued. -/
structure RunResult where
  comp : CompState
  db : CacheDB
  lookedCache : Bool
  calledApi : Bool
  deriving DecidableEq, Repr

/-- Rendered definitions affordance on the card back: the disabled loading
button, the error banner with its message and retry button, or the plain
definitions button. -/
inductive DefButtonView where
  | loadingButton
  | errorBanner (msg : String)
  | definitionsButton
  deriving DecidableEq, Repr

/-- Embedding of `renderDefinitionsButton` from `FlashCard.jsx`. -/
def renderDefinitionsButton (s : CompState) : DefButtonView :=
  if s.definitionsLoading = true then .loadingButton
  else
    match s.definitionsError with
    | some m => .errorBanner m
    | none => .definitionsButton

/-- Remote phase of `fetchDefinitions`, entered on a cache miss or when the
cache holds only placeholder content: issue the fetch, handle the response
status, parse the body, optionally cache a non-placeholder result, and apply
the staleness check after every `await`. -/
def fetchRemotePhase (requested : String) (now : Int) (s2 : CompState)
    (db1 : CacheDB) (env : FetchEnv) : RunResult :=
  let s3 := applyGap env.gap2 s2
  match env.api with
  | .networkError msg =>
    let m := if msg = "" then "Could not load definitions" else msg
    ⟨runFinally requested (runCatch requested m s3), db1, true, true⟩
  | .httpError status =>
    if s3.currentWordId ≠ requested then ⟨runFinally requested s3, db1, true, true⟩
    else
      let m := if status = 404 then "No definitions available"
               else "Failed to load definitions"
      ⟨runFinally requested (runCatch requested m s3), db1, true, true⟩
  | .ok defs link =>
    if s3.currentWordId ≠ requested then ⟨runFinally requested s3, db1, true, true⟩
    else
      let s4 := applyGap env.gap3 s3
      if s4.currentWordId ≠ requested then ⟨runFinally requested s4, db1, true, true⟩
      else
        if isPlaceholder defs then
          let s6 : CompState := { s4 with definitions := some defs, raeLink := link,
                                          showDefinitions := true }
          ⟨runFinally requested s6, db1, true, true⟩
        else
          match cacheDefinition requested ⟨defs, link⟩ now env.openOk env.writeFail db1 with
          | (Except.error _, db2) =>
            let s5 := applyGap env.gap4 s4
            ⟨runFinally requested (runCatch requested "Could not load definitions" s5),
             db2, true, true⟩
          | (Except.ok _, db2) =>
            let s5 := applyGap env.gap4 s4
            if s5.currentWordId ≠ requested then ⟨runFinally requested s5, db2, true, true⟩
            else
              let s6 : CompState := { s5 with definitions := some defs, raeLink := link,
                                              showDefinitions := true }
              ⟨runFinally requested s6, db2, true, true⟩

/-- Embedding of one `fetchDefinitions` run from `FlashCard.jsx`: the
re-entry guard, the cache lookup with its staleness check, the cache-hit
test, and the remote phase. -/
def fetchDefinitions (wordId : String) (now : Int) (s0 : CompState)
    (db0 : CacheDB) (env : FetchEnv) : RunResult :=
  if s0.definitionsLoading = true ∨ s0.definitions.isSome = true then
    ⟨s0, db0, false, false⟩
  else
    let requested := wordId
    let s1 : CompState := { s0 with definitionsLoading := true, definitionsError := none }
    match getCachedDefinition requested now env.openOk env.readFail env.touchFail db0 with
    | (Except.error _, db1) =>
      let s2 := applyGap env.gap1 s1
      ⟨runFinally requested (runCatch requested "Could not load definitions" s2),
       db1, true, false⟩
    | (Except.ok cached, db1) =>
      let s2 := applyGap env.gap1 s1
      if s2.currentWordId ≠ requested then ⟨runFinally requested s2, db1, true, false⟩
      else
        match cached with
        | some c =>
          if isPlaceholder c.definitions then fetchRemotePhase requested now s2 db1 env
          else
            let s3 : CompState := { s2 with definitions := some c.definitions,
                                            raeLink := c.rae_link,
                                            definitionsLoading := false,
                                            showDefinitions := true }
            ⟨runFinally requested s3, db1, true, false⟩
        | none => fetchRemotePhase requested now s2 db1 env

/-- Driver used to state the bulk-insertion scenario: write a sequence of
definitions through `cacheDefinition`, one per logical clock tick, with the
storage layer healthy throughout. -/
def insertSeq (db : CacheDB) (t : Int) : List (String × DefData) → CacheDB
  | [] => db
  | (k, v) :: rest => insertSeq (cacheDefinition k v t true false db).2 (t + 1) rest

/-- Entries that the bulk-insertion driver writes, with their timestamps. -/
def entriesFrom (t : Int) : List (String × DefData) → List CacheEntry
  | [] => []
  | (k, v) :: rest => ⟨k, v.definitions, v.rae_link, t⟩ :: entriesFrom (t + 1) rest

/-- Last `n` elements of a list. -/
def lastN (n : Nat) (l : List α) : List α :=
  l.drop (l.length - n)

theorem findEntry_putEntry_self (e : CacheEntry) (l : List CacheEntry) :
    findEntry e.wordId (putEntry e l) = some e := by
  induction l with
  | nil => simp [putEntry, findEntry]
  | cons x rest ih =>
    by_cases h : x.wordId = e.wordId
    · simp [putEntry, h, findEntry]
    · simp [putEntry, h, findEntry, ih]

theorem putEntry_of_not_mem (e : CacheEntry) (l : List CacheEntry)
    (h : e.wordId ∉ storeKeys l) : putEntry e l = l ++ [e] := by
  induction l with
  | nil => simp [putEntry]
  | cons x rest ih =>
    simp only [storeKeys, List.map_cons, List.mem_cons] at h
    push_neg at h
    simp only [putEntry]
    rw [if_neg (fun hx => h.1 hx.symm), ih (by simpa [storeKeys] using h.2)]
    simp

theorem mem_of_mem_putEntry {x e : CacheEntry} {l : List CacheEntry}
    (h : x ∈ putEntry e l) : x = e ∨ x ∈ l := by
  induction l with
  | nil => simpa [putEntry] using h
  | cons y rest ih =>
    by_cases hy : y.wordId = e.wordId
    · simp only [putEntry, if_pos hy, List.mem_cons] at h
      rcases h with h | h
      · exact Or.inl h
      · exact Or.inr (List.mem_cons_of_mem _ h)
    · simp only [putEntry, if_neg hy, List.mem_cons] at h
      rcases h with h | h
      · exact Or.inr (h ▸ List.mem_cons_self _ _)
      · rcases ih h with h2 | h2
        · exact Or.inl h2
        · exact Or.inr (List.mem_cons_of_mem _ h2)

theorem mem_putEntry_of_ne {x e : CacheEntry} {l : List CacheEntry}
    (hx : x ∈ l) (hne : x.wordId ≠ e.wordId) : x ∈ putEntry e l := by
  induction l with
  | nil => cases hx
  | cons y rest ih =>
    by_cases hy : y.wordId = e.wordId
    · simp only [putEntry, if_pos hy]
      rcases List.mem_cons.1 hx with h | h
      · exact absurd (h ▸ hy) hne
      · exact List.mem_cons_of_mem _ h
    · simp only [putEntry, if_neg hy]
      rcases List.mem_cons.1 hx with h | h
      · exact h ▸ List.mem_cons_self _ _
      · exact List.mem_cons_of_mem _ (ih h)

theorem mem_putEntry_elim {x e : CacheEntry} {l : List CacheEntry}
    (hnd : (storeKeys l).Nodup) (h : x ∈ putEntry e l) :
    x = e ∨ (x ∈ l ∧ x.wordId ≠ e.wordId) := by
  induction l with
  | nil => exact Or.inl (by simpa [putEntry] using h)
  | cons y rest ih =>
    simp only [storeKeys, List.map_cons, List.nodup_cons] at hnd
    by_cases hy : y.wordId = e.wordId
    · simp only [putEntry, if_pos hy, List.mem_cons] at h
      rcases h with h | h
      · exact Or.inl h
      · refine Or.inr ⟨List.mem_cons_of_mem _ h, fun hx => ?_⟩
        exact hnd.1 (hy ▸ hx ▸ List.mem_map_of_mem _ h)
    · simp only [putEntry, if_neg hy, List.mem_cons] at h
      rcases h with h | h
      · exact Or.inr ⟨h ▸ List.mem_cons_self _ _, h ▸ hy⟩
      · rcases ih (by simpa [storeKeys] using hnd.2) h with h2 | h2
        · exact Or.inl h2
        · exact Or.inr ⟨List.mem_cons_of_mem _ h2.1, h2.2⟩

theorem findEntry_eq_none {k : String} {l : List CacheEntry}
    (h : k ∉ storeKeys l) : findEntry k l = none := by
  induction l with
  | nil => rfl
  | cons x rest ih =>
    simp only [storeKeys, List.map_cons, List.mem_cons] at h
    push_neg at h
    simp only [findEntry]
    rw [if_neg (fun hx => h.1 hx.symm)]
    exact ih (by simpa [storeKeys] using h.2)

theorem eq_of_storeKeys_nodup {x y : CacheEntry} {l : List CacheEntry}
    (hnd : (storeKeys l).Nodup) (hx : x ∈ l) (hy : y ∈ l)
    (h : x.wordId = y.wordId) : x = y := by
  induction l with
  | nil => cases hx
  | cons z rest ih =>
    simp only [storeKeys, List.map_cons, List.nodup_cons] at hnd
    rcases List.mem_cons.1 hx with hx1 | hx1 <;> rcases List.mem_cons.1 hy with hy1 | hy1
    · exact hx1.trans hy1.symm
    · exact absurd (by rw [← hx1, h]; exact List.mem_map_of_mem _ hy1) hnd.1
    · exact absurd (by rw [← hy1, ← h]; exact List.mem_map_of_mem _ hx1) hnd.1
    · exact ih (by simpa [storeKeys] using hnd.2) hx1 hy1

theorem findEntry_of_mem_nodup {k : String} {e : CacheEntry} {l : List CacheEntry}
    (hnd : (storeKeys l).Nodup) (he : e ∈ l) (hk : e.wordId = k) :
    findEntry k l = some e := by
  induction l with
  | nil => cases he
  | cons x rest ih =>
    simp only [storeKeys, List.map_cons, List.nodup_cons] at hnd
    rcases List.mem_cons.1 he with h | h
    · have hxk : x.wordId = k := h ▸ hk
      simp [findEntry, hxk, h]
    · have hxk : x.wordId ≠ k := by
        intro hx
        exact hnd.1 (hx ▸ hk ▸ List.mem_map_of_mem _ h)
      simp only [findEntry, if_neg hxk]
      exact ih (by simpa [storeKeys] using hnd.2) h

theorem storeKeys_nodup_putEntry {e : CacheEntry} {l : List CacheEntry}
    (hnd : (storeKeys l).Nodup) : (storeKeys (putEntry e l)).Nodup := by
  induction l with
  | nil => simp [putEntry, storeKeys]
  | cons x rest ih =>
    simp only [storeKeys, List.map_cons, List.nodup_cons] at hnd
    by_cases hy : x.wordId = e.wordId
    · simp only [putEntry, if_pos hy, storeKeys, List.map_cons, List.nodup_cons]
      exact ⟨by simpa [storeKeys, hy] using hnd.1, by simpa [storeKeys] using hnd.2⟩
    · simp only [putEntry, if_neg hy, storeKeys, List.map_cons, List.nodup_cons]
      constructor
      · intro hmem
        rcases List.mem_map.1 hmem with ⟨y, hy1, hy2⟩
        rcases mem_of_mem_putEntry hy1 with h | h
        · exact hy (hy2 ▸ h ▸ rfl)
        · exact hnd.1 (hy2 ▸ List.mem_map_of_mem _ h)
      · exact ih (by simpa [storeKeys] using hnd.2)

theorem sortByRecency_perm (l : List CacheEntry) : List.Perm (sortByRecency l) l :=
  List.perm_insertionSort recLe l

theorem sortByRecency_sorted (l : List CacheEntry) :
    List.Sorted recLe (sortByRecency l) :=
  List.sorted_insertionSort recLe l

theorem sortByRecency_eq_self {l : List CacheEntry} (h : List.Sorted recLe l) :
    sortByRecency l = l :=
  h.insertionSort_eq

theorem evictIfNeeded_of_le {l : List CacheEntry} (h : l.length ≤ MAX_ENTRIES) :
    evictIfNeeded l = l := by
  simp only [evictIfNeeded]
  rw [if_neg (by omega)]

theorem wordId_not_in_victims {l : List CacheEntry} {e : CacheEntry} {m : Nat}
    (hnd : (storeKeys l).Nodup) (he : e ∈ l)
    (hmax : ∀ x ∈ l, x ≠ e → x.cachedAt < e.cachedAt)
    (hm : m < l.length) :
    e.wordId ∉ storeKeys ((sortByRecency l).take m) := by
  intro hmem
  rcases List.mem_map.1 hmem with ⟨y, hy_take, hy_id⟩
  have hperm : List.Perm (sortByRecency l) l := sortByRecency_perm l
  have hy_L : y ∈ sortByRecency l := List.mem_of_mem_take hy_take
  have hy_l : y ∈ l := hperm.mem_iff.1 hy_L
  have hye : y = e := eq_of_storeKeys_nodup hnd hy_l he hy_id
  subst hye
  have hlen : (sortByRecency l).length = l.length := hperm.length_eq
  have hdrop_pos : 0 < ((sortByRecency l).drop m).length := by
    rw [List.length_drop]; omega
  rcases List.exists_mem_of_ne_nil _ (List.length_pos.1 hdrop_pos) with ⟨z, hz_drop⟩
  have hz_l : z ∈ l := hperm.mem_iff.1 (List.mem_of_mem_drop hz_drop)
  have hlnd : l.Nodup := List.Nodup.of_map _ hnd
  have hLnd : (sortByRecency l).Nodup := hperm.nodup_iff.2 hlnd
  have hzy : z ≠ y := by
    intro hzz
    subst hzz
    have := List.take_append_drop m (sortByRecency l)
    rw [← this] at hLnd
    exact (List.nodup_append.1 hLnd).2.2 hy_take hz_drop
  have hlt : z.cachedAt < y.cachedAt := hmax z hz_l hzy
  have hsorted := sortByRecency_sorted l
  rw [List.Sorted, ← List.take_append_drop m (sortByRecency l),
    List.pairwise_append] at hsorted
  have hle : recLe y z := hsorted.2.2 y hy_take z hz_drop
  rcases hle with h1 | ⟨h1, _⟩
  · exact absurd hlt (lt_asymm h1)
  · rw [h1] at hlt
    exact lt_irrefl _ hlt

theorem findEntry_evictIfNeeded_of_max {l : List CacheEntry} {e : CacheEntry}
    (hnd : (storeKeys l).Nodup) (he : e ∈ l)
    (hmax : ∀ x ∈ l, x ≠ e → x.cachedAt < e.cachedAt) :
    findEntry e.wordId (evictIfNeeded l) = some e := by
  by_cases hlen : l.length > MAX_ENTRIES
  · have hm : l.length - MAX_ENTRIES < l.length := by
      have : 0 < MAX_ENTRIES := by decide
      omega
    have hnv := wordId_not_in_victims hnd he hmax hm
    simp only [evictIfNeeded, if_pos hlen]
    set p : CacheEntry → Bool := fun x => decide (x.wordId ∉
      storeKeys ((sortByRecency l).take (l.length - MAX_ENTRIES))) with hp
    have hef : e ∈ l.filter p := by
      refine List.mem_filter.2 ⟨he, ?_⟩
      rw [hp]
      exact decide_eq_true hnv
    have hsub : List.Sublist (l.filter p) l := List.filter_sublist l
    have hfnd : (storeKeys (l.filter p)).Nodup :=
      List.Nodup.sublist (List.Sublist.map _ hsub) hnd
    exact findEntry_of_mem_nodup hfnd hef rfl
  · rw [evictIfNeeded_of_le (by omega)]
    exact findEntry_of_mem_nodup hnd he rfl

theorem evictIfNeeded_sorted_succ {h : CacheEntry} {t : List CacheEntry}
    (hlen : (h :: t).length = MAX_ENTRIES + 1)
    (hsort : List.Sorted recLe (h :: t))
    (hnd : (storeKeys (h :: t)).Nodup) :
    evictIfNeeded (h :: t) = t := by
  simp only [evictIfNeeded]
  rw [if_pos (by omega), sortByRecency_eq_self hsort, hlen]
  have hone : MAX_ENTRIES + 1 - MAX_ENTRIES = 1 := by omega
  rw [hone]
  simp only [List.take, storeKeys, List.map_cons, List.map_nil]
  simp only [storeKeys, List.map_cons, List.nodup_cons] at hnd
  rw [List.filter_cons_of_neg (by simp)]
  refine List.filter_eq_self.2 ?_
  intro a ha
  have : a.wordId ≠ h.wordId := by
    intro hx
    exact hnd.1 (hx ▸ List.mem_map_of_mem _ ha)
  simp [this]

theorem lastN_of_le {l : List α} {n : Nat} (h : l.length ≤ n) : lastN n l = l := by
  simp [lastN, Nat.sub_eq_zero_of_le h]

theorem lastN_cons_append {n : Nat} (x : α) (l X : List α) (h : n ≤ l.length) :
    lastN n ((x :: l) ++ X) = lastN n (l ++ X) := by
  simp only [lastN, List.length_append, List.length_cons]
  have h1 : l.length + 1 + X.length - n = (l.length + X.length - n) + 1 := by omega
  rw [List.cons_append, h1, List.drop_succ_cons]

theorem storeKeys_entriesFrom (L : List (String × DefData)) :
    ∀ t, storeKeys (entriesFrom t L) = L.map Prod.fst := by
  induction L with
  | nil => intro t; rfl
  | cons p rest ih =>
    intro t
    obtain ⟨k, v⟩ := p
    simp only [entriesFrom, storeKeys, List.map_cons]
    have h2 := ih (t + 1)
    simp only [storeKeys] at h2
    rw [h2]

theorem sorted_recLe_of_pairwise_lt {l : List CacheEntry}
    (h : l.Pairwise (fun a b => a.cachedAt < b.cachedAt)) : List.Sorted recLe l :=
  h.imp (fun hab => Or.inl hab)

theorem insertSeq_store_eq (L : List (String × DefData)) :
    ∀ (S : List CacheEntry) (t : Int),
    (storeKeys S).Nodup →
    (L.map Prod.fst).Nodup →
    (∀ k ∈ storeKeys S, k ∉ L.map Prod.fst) →
    S.Pairwise (fun a b => a.cachedAt < b.cachedAt) →
    (∀ e ∈ S, e.cachedAt < t) →
    S.length ≤ MAX_ENTRIES →
    insertSeq ⟨Conn.opened, S⟩ t L =
      ⟨Conn.opened, lastN MAX_ENTRIES (S ++ entriesFrom t L)⟩ := by
  induction L with
  | nil =>
    intro S t _ _ _ _ _ hlen
    simp [insertSeq, entriesFrom, lastN_of_le hlen]
  | cons p rest ih =>
    intro S t hndS hndL hdisj hsortS hlt hlen
    obtain ⟨k, v⟩ := p
    have hkfresh : k ∉ storeKeys S := fun hk => hdisj k hk (by simp)
    have hput : putEntry ⟨k, v.definitions, v.rae_link, t⟩ S =
        S ++ [⟨k, v.definitions, v.rae_link, t⟩] :=
      putEntry_of_not_mem _ _ hkfresh
    have hstep : insertSeq ⟨Conn.opened, S⟩ t ((k, v) :: rest) =
        insertSeq ⟨Conn.opened,
          evictIfNeeded (S ++ [⟨k, v.definitions, v.rae_link, t⟩])⟩ (t + 1) rest := by
      simp [insertSeq, cacheDefinition, openDB, hput]
    set e : CacheEntry := ⟨k, v.definitions, v.rae_link, t⟩ with hedef
    simp only [List.map_cons, List.nodup_cons] at hndL
    have hkeys_app : storeKeys (S ++ [e]) = storeKeys S ++ [k] := by
      simp [storeKeys, hedef]
    have hnd_app : (storeKeys (S ++ [e])).Nodup := by
      rw [hkeys_app, List.nodup_append]
      exact ⟨hndS, List.nodup_singleton k,
        fun a ha => by simp; intro hak; exact hkfresh (hak ▸ ha)⟩
    have hsort_app : (S ++ [e]).Pairwise (fun a b => a.cachedAt < b.cachedAt) := by
      rw [List.pairwise_append]
      exact ⟨hsortS, List.pairwise_singleton _ _,
        fun a ha b hb => by
          simp only [List.mem_singleton] at hb
          subst hb
          exact hlt a ha⟩
    have hlt_app : ∀ x ∈ S ++ [e], x.cachedAt < t + 1 := by
      intro x hx
      rcases List.mem_append.1 hx with hx | hx
      · exact (hlt x hx).trans (by omega)
      · simp only [List.mem_singleton] at hx
        subst hx
        simp [hedef]
    have hdisj_app : ∀ a ∈ storeKeys (S ++ [e]), a ∉ rest.map Prod.fst := by
      intro a ha
      rw [hkeys_app] at ha
      rcases List.mem_append.1 ha with ha | ha
      · intro hmem
        exact hdisj a ha (List.mem_cons_of_mem _ hmem)
      · simp only [List.mem_singleton] at ha
        subst ha
        exact hndL.1
    have hentries : S ++ entriesFrom t ((k, v) :: rest) =
        (S ++ [e]) ++ entriesFrom (t + 1) rest := by
      simp [entriesFrom, hedef]
    by_cases hcase : (S ++ [e]).length ≤ MAX_ENTRIES
    · rw [hstep, evictIfNeeded_of_le hcase,
        ih (S ++ [e]) (t + 1) hnd_app hndL.2 hdisj_app hsort_app hlt_app hcase,
        hentries]
    · have hSlen : S.length = MAX_ENTRIES := by
        simp only [List.length_append, List.length_singleton] at hcase
        omega
      have hlen_app : (S ++ [e]).length = MAX_ENTRIES + 1 := by
        simp [List.length_append, hSlen]
      obtain ⟨s0, S1, rfl⟩ : ∃ s0 S1, S = s0 :: S1 := by
        cases S with
        | nil => simp [MAX_ENTRIES] at hSlen
        | cons a b => exact ⟨a, b, rfl⟩
      have hcons : (s0 :: S1) ++ [e] = s0 :: (S1 ++ [e]) := by simp
      have hevict : evictIfNeeded ((s0 :: S1) ++ [e]) = S1 ++ [e] := by
        rw [hcons]
        exact evictIfNeeded_sorted_succ (by simpa using hlen_app)
          (sorted_recLe_of_pairwise_lt (by simpa [hcons] using hsort_app))
          (by simpa [hcons] using hnd_app)
      have hnd_tl : (storeKeys (S1 ++ [e])).Nodup := by
        have := hnd_app
        rw [hcons] at this
        simp only [storeKeys, List.map_cons, List.nodup_cons] at this
        exact this.2
      have hsort_tl : (S1 ++ [e]).Pairwise (fun a b => a.cachedAt < b.cachedAt) := by
        have := hsort_app
        rw [hcons] at this
        exact (List.pairwise_cons.1 this).2
      have hlt_tl : ∀ x ∈ S1 ++ [e], x.cachedAt < t + 1 := by
        intro x hx
        exact hlt_app x (by rw [hcons]; exact List.mem_cons_of_mem _ hx)
      have hdisj_tl : ∀ a ∈ storeKeys (S1 ++ [e]), a ∉ rest.map Prod.fst := by
        intro a ha
        refine hdisj_app a ?_
        rw [hcons]
        simp only [storeKeys, List.map_cons, List.mem_cons]
        exact Or.inr (by simpa [storeKeys] using ha)
      have hlen_tl : (S1 ++ [e]).length ≤ MAX_ENTRIES := by
        simp only [List.length_append, List.length_singleton]
        have : S1.length + 1 = MAX_ENTRIES := by
          simpa [List.length_cons] using hSlen
        omega
      have hlen_tl_ge : MAX_ENTRIES ≤ (S1 ++ [e]).length := by
        simp only [List.length_append, List.length_singleton]
        have : S1.length + 1 = MAX_ENTRIES := by
          simpa [List.length_cons] using hSlen
        omega
      rw [hstep, hevict,
        ih (S1 ++ [e]) (t + 1) hnd_tl hndL.2 hdisj_tl hsort_tl hlt_tl hlen_tl,
        hentries, hcons, lastN_cons_append _ _ _ hlen_tl_ge]

theorem mem_putEntry_self (e : CacheEntry) (l : List CacheEntry) :
    e ∈ putEntry e l := by
  induction l with
  | nil => simp [putEntry]
  | cons x rest ih =>
    by_cases h : x.wordId = e.wordId
    · simp [putEntry, h]
    · simp only [putEntry, if_neg h]
      exact List.mem_cons_of_mem _ ih

theorem findEntry_some_key {k : String} {e : CacheEntry} {l : List CacheEntry}
    (h : findEntry k l = some e) : e.wordId = k := by
  induction l with
  | nil => cases h
  | cons x rest ih =>
    by_cases hx : x.wordId = k
    · simp only [findEntry, if_pos hx] at h
      cases h
      exact hx
    · simp only [findEntry, if_neg hx] at h
      exact ih h

theorem not_mem_keys_of_findEntry_none {k : String} {l : List CacheEntry}
    (h : findEntry k l = none) : k ∉ storeKeys l := by
  induction l with
  | nil => simp [storeKeys]
  | cons x rest ih =>
    by_cases hx : x.wordId = k
    · simp [findEntry, if_pos hx] at h
    · simp only [findEntry, if_neg hx] at h
      simp only [storeKeys, List.map_cons, List.mem_cons]
      push_neg
      exact ⟨fun hk => hx hk.symm, by simpa [storeKeys] using ih h⟩

theorem getCachedDefinition_not_error (k : String) (now : Int)
    (o r t : Bool) (db : CacheDB) :
    ∃ x, (getCachedDefinition k now o r t db).1 = Except.ok x := by
  simp only [getCachedDefinition]
  rcases h : openDB o db.conn <;> simp
  cases r <;> simp
  cases findEntry k db.store <;> simp

theorem cacheDefinition_ok (k : String) (v : DefData) (now : Int)
    (o w : Bool) (db : CacheDB) :
    (cacheDefinition k v now o w db).1 = Except.ok () := by
  simp only [cacheDefinition]
  rcases h : openDB o db.conn <;> simp
  cases w <;> simp

theorem clearOldEntries_not_error (maxAgeDays now : Int)
    (o cf : Bool) (db : CacheDB) :
    ∃ n, (clearOldEntries maxAgeDays now o cf db).1 = Except.ok n := by
  simp only [clearOldEntries]
  rcases h : openDB o db.conn <;> simp
  cases cf <;> simp

theorem getCacheSize_not_error (o sf : Bool) (db : CacheDB) :
    ∃ n, (getCacheSize o sf db).1 = Except.ok n := by
  simp only [getCacheSize]
  rcases h : openDB o db.conn <;> simp
  cases sf <;> simp

theorem getCachedDefinition_value (k : String) (now : Int)
    (o t : Bool) (db : CacheDB) :
    (getCachedDefinition k now o false t db).1 = Except.ok none ∨
    ∃ e, findEntry k db.store = some e ∧
      (getCachedDefinition k now o false t db).1 =
        Except.ok (some ⟨e.definitions, e.rae_link⟩) := by
  simp only [getCachedDefinition]
  rcases h : openDB o db.conn <;> simp
  rcases hf : findEntry k db.store with _ | e
  · simp
  · exact Or.inr ⟨e, rfl, by simp⟩

theorem fetchRemotePhase_calledApi (requested : String) (now : Int)
    (s : CompState) (db : CacheDB) (env : FetchEnv) :
    (fetchRemotePhase requested now s db env).calledApi = true := by
  unfold fetchRemotePhase
  repeat' first | rfl | split | (dsimp only)

theorem getCacheSize_opened (st : List CacheEntry) :
    (getCacheSize true false ⟨Conn.opened, st⟩).1 = Except.ok st.length := rfl

theorem entriesFrom_length (L : List (String × DefData)) :
    ∀ t, (entriesFrom t L).length = L.length := by
  induction L with
  | nil => intro t; rfl
  | cons p rest ih =>
    intro t
    obtain ⟨k, v⟩ := p
    simp [entriesFrom, ih]

/-- C3: read-your-write.  For every key and every non-placeholder value,
after a successful `cacheDefinition` write, `getCachedDefinition` of the
same key returns exactly that definitions sequence and external link.  The
store is open, the write and the read succeed, the existing entries carry
strictly older timestamps than the write, and keys are unique. -/
theorem cache_read_your_write (db : CacheDB) (k : String) (v : DefData)
    (now now2 : Int) (touchFail : Bool)
    (hconn : db.conn = Conn.opened)
    (hnp : isPlaceholder v.definitions = false)
    (hnd : (storeKeys db.store).Nodup)
    (hfresh : ∀ e ∈ db.store, e.cachedAt < now) :
    (cacheDefinition k v now true false db).1 = Except.ok () ∧
    (getCachedDefinition k now2 true false touchFail
        (cacheDefinition k v now true false db).2).1 =
      Except.ok (some ⟨v.definitions, v.rae_link⟩) := by
  obtain ⟨conn, store⟩ := db
  simp only at hconn hnd hfresh
  subst hconn
  refine ⟨cacheDefinition_ok _ _ _ _ _ _, ?_⟩
  have hstep : (cacheDefinition k v now true false ⟨Conn.opened, store⟩).2 =
      ⟨Conn.opened, evictIfNeeded (putEntry ⟨k, v.definitions, v.rae_link, now⟩ store)⟩ := by
    simp [cacheDefinition, openDB]
  rw [hstep]
  have hnd2 : (storeKeys (putEntry ⟨k, v.definitions, v.rae_link, now⟩ store)).Nodup :=
    storeKeys_nodup_putEntry hnd
  have hmem : (⟨k, v.definitions, v.rae_link, now⟩ : CacheEntry) ∈
      putEntry ⟨k, v.definitions, v.rae_link, now⟩ store :=
    mem_putEntry_self _ _
  have hmax : ∀ x ∈ putEntry ⟨k, v.definitions, v.rae_link, now⟩ store,
      x ≠ ⟨k, v.definitions, v.rae_link, now⟩ →
      x.cachedAt < (⟨k, v.definitions, v.rae_link, now⟩ : CacheEntry).cachedAt := by
    intro x hx hne
    rcases mem_putEntry_elim hnd hx with h | ⟨hxs, _⟩
    · exact absurd h hne
    · exact hfresh x hxs
  have hfind : findEntry k
      (evictIfNeeded (putEntry ⟨k, v.definitions, v.rae_link, now⟩ store)) =
      some ⟨k, v.definitions, v.rae_link, now⟩ :=
    findEntry_evictIfNeeded_of_max hnd2 hmem hmax
  simp [getCachedDefinition, openDB, hfind]

/-- C3 witness: the concrete scenario for key "correr". -/
theorem cache_read_your_write_witness :
    (cacheDefinition "correr" ⟨["to run"], some "https://dle.rae.es/correr"⟩ 5 true false
        ⟨Conn.opened, [⟨"viejo", ["old"], none, 0⟩]⟩).1 = Except.ok () ∧
    (getCachedDefinition "correr" 6 true false false
        (cacheDefinition "correr" ⟨["to run"], some "https://dle.rae.es/correr"⟩ 5 true false
          ⟨Conn.opened, [⟨"viejo", ["old"], none, 0⟩]⟩).2).1 =
      Except.ok (some ⟨["to run"], some "https://dle.rae.es/correr"⟩) :=
  cache_read_your_write ⟨Conn.opened, [⟨"viejo", ["old"], none, 0⟩]⟩
    "correr" ⟨["to run"], some "https://dle.rae.es/correr"⟩ 5 6 false
    rfl (by decide) (by decide) (by decide)

/-- C4: LRU size bound.  Writing `MAX_ENTRIES + N` definitions under
pairwise-distinct keys with strictly increasing timestamps into an empty,
healthy store leaves exactly `MAX_ENTRIES` entries: the reported size is
`MAX_ENTRIES`, the surviving keys are precisely the `MAX_ENTRIES` most
recently written ones, and each of the `N` least recently written keys is
absent. -/
theorem cache_lru_bound (L : List (String × DefData)) (N : Nat)
    (hnd : (L.map Prod.fst).Nodup)
    (hlen : L.length = MAX_ENTRIES + N) :
    (getCacheSize true false (insertSeq ⟨Conn.opened, []⟩ 0 L)).1 =
      Except.ok MAX_ENTRIES ∧
    storeKeys (insertSeq ⟨Conn.opened, []⟩ 0 L).store = (L.map Prod.fst).drop N ∧
    ∀ k ∈ (L.map Prod.fst).take N,
      findEntry k (insertSeq ⟨Conn.opened, []⟩ 0 L).store = none := by
  have hmain := insertSeq_store_eq L [] 0 (by simp [storeKeys]) hnd
    (by simp [storeKeys]) (by simp) (by simp) (by simp)
  rw [List.nil_append] at hmain
  have hElen : (entriesFrom 0 L).length = MAX_ENTRIES + N := by
    rw [entriesFrom_length]
    exact hlen
  have hstore : (insertSeq ⟨Conn.opened, []⟩ 0 L).store =
      (entriesFrom 0 L).drop N := by
    rw [hmain]
    simp only [lastN, hElen]
    have harith : MAX_ENTRIES + N - MAX_ENTRIES = N := by omega
    rw [harith]
  have hkeys : storeKeys ((entriesFrom 0 L).drop N) = (L.map Prod.fst).drop N := by
    simp only [storeKeys]
    rw [List.map_drop]
    have h2 := storeKeys_entriesFrom L 0
    simp only [storeKeys] at h2
    rw [h2]
  refine ⟨?_, ?_, ?_⟩
  · rw [hmain, getCacheSize_opened]
    simp only [lastN]
    rw [List.length_drop, hElen]
    have harith2 : MAX_ENTRIES + N - (MAX_ENTRIES + N - MAX_ENTRIES) = MAX_ENTRIES := by
      omega
    rw [harith2]
  · rw [hstore, hkeys]
  · intro k hk
    rw [hstore]
    apply findEntry_eq_none
    rw [hkeys]
    intro hmem
    have hsplit := hnd
    rw [← List.take_append_drop N (L.map Prod.fst), List.nodup_append] at hsplit
    exact hsplit.2.2 hk hmem

/-- Injective key generator used by the LRU witness scenario. -/
def natKey (i : Nat) : String :=
  String.mk (List.replicate i 'a')

theorem natKey_injective : Function.Injective natKey := by
  intro i j h
  have h2 := congrArg (fun s => s.data.length) h
  simpa [natKey] using h2

/-- Concrete insertion sequence of `MAX_ENTRIES + 1` distinct keys. -/
def lruScenarioList : List (String × DefData) :=
  (List.range (MAX_ENTRIES + 1)).map (fun i => (natKey i, ⟨["d"], none⟩))

theorem lruScenarioList_keys :
    lruScenarioList.map Prod.fst = (List.range (MAX_ENTRIES + 1)).map natKey := by
  simp [lruScenarioList, List.map_map, Function.comp]

/-- C4 witness: the scenario instantiated with `N = 1` and 1001 concrete
distinct keys. -/
theorem cache_lru_bound_witness :
    (getCacheSize true false (insertSeq ⟨Conn.opened, []⟩ 0 lruScenarioList)).1 =
      Except.ok MAX_ENTRIES ∧
    storeKeys (insertSeq ⟨Conn.opened, []⟩ 0 lruScenarioList).store =
      (lruScenarioList.map Prod.fst).drop 1 ∧
    ∀ k ∈ (lruScenarioList.map Prod.fst).take 1,
      findEntry k (insertSeq ⟨Conn.opened, []⟩ 0 lruScenarioList).store = none :=
  cache_lru_bound lruScenarioList 1
    (by rw [lruScenarioList_keys]
        exact (List.nodup_range _).map natKey_injective)
    (by simp [lruScenarioList])

/-- C5 counterexample: the purge cutoff is inclusive.  With one entry whose
`cachedAt` equals exactly `now - D` (so it does not predate the cutoff), the
purge nevertheless deletes it and reports one deletion, while the claim as
stated predicts that nothing is removed. -/
theorem cache_age_purge_cex :
    clearOldEntries 30 (30 * 86400000) true false
        ⟨Conn.opened, [⟨"w", ["d"], none, 0⟩]⟩ =
      (Except.ok 1, ⟨Conn.opened, []⟩) ∧
    ¬ ((⟨"w", ["d"], none, 0⟩ : CacheEntry).cachedAt <
        (30 : Int) * 86400000 - 30 * 86400000) := by
  constructor
  · rfl
  · decide

/-- C5 (amended): `clearOldEntries` removes exactly the entries whose
`lastAccessed` is at or before `now - D` (inclusive cutoff), leaves every
strictly newer entry untouched, and returns the number deleted; with the
store unavailable it returns 0 and changes nothing; a second run with the
same clock and no intervening writes deletes nothing. -/
theorem cache_age_purge (maxAgeDays now : Int) (db : CacheDB)
    (hconn : db.conn = Conn.opened) :
    (clearOldEntries maxAgeDays now true false db).1 =
      Except.ok ((db.store.filter
        (fun e => decide (e.cachedAt ≤ now - maxAgeDays * 86400000))).length) ∧
    (∀ e ∈ db.store, e.cachedAt ≤ now - maxAgeDays * 86400000 →
      e ∉ (clearOldEntries maxAgeDays now true false db).2.store) ∧
    (∀ e ∈ db.store, now - maxAgeDays * 86400000 < e.cachedAt →
      e ∈ (clearOldEntries maxAgeDays now true false db).2.store) ∧
    (∀ e ∈ (clearOldEntries maxAgeDays now true false db).2.store, e ∈ db.store) ∧
    (clearOldEntries maxAgeDays now true false
        (clearOldEntries maxAgeDays now true false db).2).1 = Except.ok 0 ∧
    (∀ db2 : CacheDB, db2.conn = Conn.failed →
      clearOldEntries maxAgeDays now true false db2 = (Except.ok 0, db2)) := by
  obtain ⟨conn, store⟩ := db
  simp only at hconn
  subst hconn
  have hrun : clearOldEntries maxAgeDays now true false ⟨Conn.opened, store⟩ =
      (Except.ok ((store.filter
        (fun e => decide (e.cachedAt ≤ now - maxAgeDays * 86400000))).length),
       ⟨Conn.opened, store.filter
        (fun e => decide (now - maxAgeDays * 86400000 < e.cachedAt))⟩) := rfl
  refine ⟨by rw [hrun], ?_, ?_, ?_, ?_, ?_⟩
  · intro e he hle hmem
    rw [hrun] at hmem
    simp only [List.mem_filter, decide_eq_true_eq] at hmem
    omega
  · intro e he hlt
    rw [hrun]
    exact List.mem_filter.2 ⟨he, decide_eq_true hlt⟩
  · intro e hmem
    rw [hrun] at hmem
    exact (List.mem_filter.1 hmem).1
  · rw [hrun]
    have hnil : (store.filter
        (fun e => decide (now - maxAgeDays * 86400000 < e.cachedAt))).filter
        (fun e => decide (e.cachedAt ≤ now - maxAgeDays * 86400000)) = [] := by
      refine List.filter_eq_nil_iff.2 ?_
      intro a ha
      have h1 := (List.mem_filter.1 ha).2
      simp only [decide_eq_true_eq] at h1
      simp only [decide_eq_true_eq]
      omega
    have : clearOldEntries maxAgeDays now true false
        ⟨Conn.opened, store.filter
          (fun e => decide (now - maxAgeDays * 86400000 < e.cachedAt))⟩ =
        (Except.ok ((store.filter
            (fun e => decide (now - maxAgeDays * 86400000 < e.cachedAt))).filter
          (fun e => decide (e.cachedAt ≤ now - maxAgeDays * 86400000))).length,
         ⟨Conn.opened, (store.filter
            (fun e => decide (now - maxAgeDays * 86400000 < e.cachedAt))).filter
          (fun e => decide (now - maxAgeDays * 86400000 < e.cachedAt))⟩) := rfl
    rw [this, hnil]
    rfl
  · intro db2 h2
    obtain ⟨c2, s2⟩ := db2
    simp only at h2
    subst h2
    rfl

/-- C5 witness: a store holding one stale and one fresh entry. -/
theorem cache_age_purge_witness :
    (clearOldEntries 30 2592000050 true false
        ⟨Conn.opened, [⟨"old", ["x"], none, 0⟩, ⟨"new", ["y"], none, 100⟩]⟩).1 =
      Except.ok (([⟨"old", ["x"], none, 0⟩,
        (⟨"new", ["y"], none, 100⟩ : CacheEntry)].filter
        (fun e => decide (e.cachedAt ≤ 2592000050 - 30 * 86400000))).length) ∧
    (∀ e ∈ [⟨"old", ["x"], none, 0⟩, (⟨"new", ["y"], none, 100⟩ : CacheEntry)],
      e.cachedAt ≤ 2592000050 - 30 * 86400000 →
      e ∉ (clearOldEntries 30 2592000050 true false
        ⟨Conn.opened, [⟨"old", ["x"], none, 0⟩, ⟨"new", ["y"], none, 100⟩]⟩).2.store) ∧
    (∀ e ∈ [⟨"old", ["x"], none, 0⟩, (⟨"new", ["y"], none, 100⟩ : CacheEntry)],
      2592000050 - 30 * 86400000 < e.cachedAt →
      e ∈ (clearOldEntries 30 2592000050 true false
        ⟨Conn.opened, [⟨"old", ["x"], none, 0⟩, ⟨"new", ["y"], none, 100⟩]⟩).2.store) ∧
    (∀ e ∈ (clearOldEntries 30 2592000050 true false
        ⟨Conn.opened, [⟨"old", ["x"], none, 0⟩, ⟨"new", ["y"], none, 100⟩]⟩).2.store,
      e ∈ [⟨"old", ["x"], none, 0⟩, (⟨"new", ["y"], none, 100⟩ : CacheEntry)]) ∧
    (clearOldEntries 30 2592000050 true false
        (clearOldEntries 30 2592000050 true false
          ⟨Conn.opened, [⟨"old", ["x"], none, 0⟩, ⟨"new", ["y"], none, 100⟩]⟩).2).1 =
      Except.ok 0 ∧
    (∀ db2 : CacheDB, db2.conn = Conn.failed →
      clearOldEntries 30 2592000050 true false db2 = (Except.ok 0, db2)) :=
  cache_age_purge 30 2592000050
    ⟨Conn.opened, [⟨"old", ["x"], none, 0⟩, ⟨"new", ["y"], none, 100⟩]⟩ rfl

/-- C7 counterexample: a failed `clear` request rejects to the caller of
`clearCache` instead of being absorbed inside the cache layer. -/
theorem cache_clear_reject_cex :
    clearCache true true ⟨Conn.opened, []⟩ = (Except.error (), ⟨Conn.opened, []⟩) ∧
    exceptOk (clearCache true true ⟨Conn.opened, []⟩).1 = false :=
  ⟨rfl, rfl⟩

/-- C7 (amended): lookup, store, purge and size absorb every modelled
persistence fault and always resolve; clear absorbs an unavailable store but
rejects exactly when the store is open and the clear request itself fails. -/
theorem cache_fault_absorption (k : String) (v : DefData) (now maxAge : Int)
    (o r t w cf sf clf : Bool) (db : CacheDB) :
    exceptOk (getCachedDefinition k now o r t db).1 = true ∧
    exceptOk (cacheDefinition k v now o w db).1 = true ∧
    exceptOk (clearOldEntries maxAge now o cf db).1 = true ∧
    exceptOk (getCacheSize o sf db).1 = true ∧
    exceptOk (clearCache o clf db).1 =
      (if openDB o db.conn = Conn.opened ∧ clf = true then false else true) := by
  refine ⟨?_, ?_, ?_, ?_, ?_⟩
  · obtain ⟨x, hx⟩ := getCachedDefinition_not_error k now o r t db
    rw [hx]
    rfl
  · rw [cacheDefinition_ok]
    rfl
  · obtain ⟨n, hn⟩ := clearOldEntries_not_error maxAge now o cf db
    rw [hn]
    rfl
  · obtain ⟨n, hn⟩ := getCacheSize_not_error o sf db
    rw [hn]
    rfl
  · simp only [clearCache]
    rcases h : openDB o db.conn <;> simp [h] <;> cases clf <;> simp [exceptOk]

/-- C8: touch-on-read.  A `getCachedDefinition` that finds an entry returns
its original definitions and external link, and refreshes that entry's
`cachedAt` to the current clock in the store; when the touch write fails the
store is left unchanged but the same content is still returned.  Entries
under other keys survive the touch. -/
theorem cache_touch_on_read (db : CacheDB) (k : String) (e : CacheEntry)
    (now : Int) (o : Bool)
    (hconn : db.conn = Conn.opened)
    (hfind : findEntry k db.store = some e) :
    getCachedDefinition k now o false false db =
      (Except.ok (some ⟨e.definitions, e.rae_link⟩),
        ⟨Conn.opened, putEntry ⟨e.wordId, e.definitions, e.rae_link, now⟩ db.store⟩) ∧
    getCachedDefinition k now o false true db =
      (Except.ok (some ⟨e.definitions, e.rae_link⟩), ⟨Conn.opened, db.store⟩) ∧
    findEntry k (putEntry ⟨e.wordId, e.definitions, e.rae_link, now⟩ db.store) =
      some ⟨e.wordId, e.definitions, e.rae_link, now⟩ ∧
    (∀ x ∈ db.store, x.wordId ≠ e.wordId →
      x ∈ putEntry ⟨e.wordId, e.definitions, e.rae_link, now⟩ db.store) := by
  obtain ⟨conn, store⟩ := db
  simp only at hconn hfind
  subst hconn
  refine ⟨?_, ?_, ?_, ?_⟩
  · simp [getCachedDefinition, openDB, hfind]
  · simp [getCachedDefinition, openDB, hfind]
  · have hk := findEntry_some_key hfind
    rw [← hk]
    exact findEntry_putEntry_self ⟨e.wordId, e.definitions, e.rae_link, now⟩ store
  · intro x hx hne
    exact mem_putEntry_of_ne hx hne

/-- C8 witness: a concrete store with one entry, touched at clock 9. -/
theorem cache_touch_on_read_witness :
    getCachedDefinition "a" 9 true false false
        ⟨Conn.opened, [⟨"a", ["d"], some "L", 3⟩]⟩ =
      (Except.ok (some ⟨["d"], some "L"⟩),
        ⟨Conn.opened, putEntry ⟨"a", ["d"], some "L", 9⟩ [⟨"a", ["d"], some "L", 3⟩]⟩) ∧
    getCachedDefinition "a" 9 true false true
        ⟨Conn.opened, [⟨"a", ["d"], some "L", 3⟩]⟩ =
      (Except.ok (some ⟨["d"], some "L"⟩),
        ⟨Conn.opened, [⟨"a", ["d"], some "L", 3⟩]⟩) ∧
    findEntry "a" (putEntry ⟨"a", ["d"], some "L", 9⟩ [⟨"a", ["d"], some "L", 3⟩]) =
      some ⟨"a", ["d"], some "L", 9⟩ ∧
    (∀ x ∈ [(⟨"a", ["d"], some "L", 3⟩ : CacheEntry)], x.wordId ≠ "a" →
      x ∈ putEntry ⟨"a", ["d"], some "L", 9⟩ [⟨"a", ["d"], some "L", 3⟩]) :=
  cache_touch_on_read ⟨Conn.opened, [⟨"a", ["d"], some "L", 3⟩]⟩ "a"
    ⟨"a", ["d"], some "L", 3⟩ 9 true rfl rfl

/-- C9: sticky failed open.  Once the connection promise has settled as
rejected, every cache operation degrades to its absent/no-op/zero result and
leaves the connection rejected and the store untouched, for either value of
the would-be reopen outcome; and `openDB` never reopens a settled promise. -/
theorem cache_sticky_failed_open (st : List CacheEntry) (k : String) (v : DefData)
    (now maxAge : Int) (o r t w cf sf clf : Bool) :
    openDB o Conn.failed = Conn.failed ∧
    openDB false Conn.unopened = Conn.failed ∧
    getCachedDefinition k now o r t ⟨Conn.failed, st⟩ =
      (Except.ok none, ⟨Conn.failed, st⟩) ∧
    cacheDefinition k v now o w ⟨Conn.failed, st⟩ =
      (Except.ok (), ⟨Conn.failed, st⟩) ∧
    clearOldEntries maxAge now o cf ⟨Conn.failed, st⟩ =
      (Except.ok 0, ⟨Conn.failed, st⟩) ∧
    getCacheSize o sf ⟨Conn.failed, st⟩ = (Except.ok 0, ⟨Conn.failed, st⟩) ∧
    clearCache o clf ⟨Conn.failed, st⟩ = (Except.ok (), ⟨Conn.failed, st⟩) :=
  ⟨rfl, rfl, rfl, rfl, rfl, rfl, rfl⟩

/-- C10: re-entry guard.  While a result is held (including a placeholder)
or a fetch is in flight, `fetchDefinitions` returns at once, touching
neither the component state nor the cache and issuing neither a cache
lookup nor a remote request; only the word-change effect clears the held
result and re-enables fetching. -/
theorem fetch_reentry_guard :
    (∀ (w : String) (now : Int) (s : CompState) (db : CacheDB) (env : FetchEnv),
      s.definitionsLoading = true ∨ s.definitions ≠ none →
      fetchDefinitions w now s db env = ⟨s, db, false, false⟩) ∧
    (∀ w : String, (resetForWord w).definitions = none ∧
      (resetForWord w).definitionsLoading = false) := by
  constructor
  · intro w now s db env h
    have hcond : s.definitionsLoading = true ∨ s.definitions.isSome = true := by
      rcases h with h | h
      · exact Or.inl h
      · exact Or.inr (Option.isSome_iff_ne_none.2 h)
    simp only [fetchDefinitions]
    rw [if_pos hcond]
  · intro w
    exact ⟨rfl, rfl⟩

/-- C10 witness: with a result already held, a further call is the
identity. -/
theorem fetch_reentry_guard_witness :
    fetchDefinitions "a" 0 ⟨"a", false, some ["x"], false, none, none⟩
        ⟨Conn.opened, []⟩
        ⟨true, false, false, false, none, none, none, none,
          ApiResponse.httpError 500⟩ =
      ⟨⟨"a", false, some ["x"], false, none, none⟩, ⟨Conn.opened, []⟩,
        false, false⟩ :=
  fetch_reentry_guard.1 "a" 0 ⟨"a", false, some ["x"], false, none, none⟩
    ⟨Conn.opened, []⟩
    ⟨true, false, false, false, none, none, none, none, ApiResponse.httpError 500⟩
    (Or.inr (by decide))

/-- C2: placeholder rule.  A cached entry holding placeholder content is
never served as a cache hit — the remote request is still issued; and a
remote placeholder result is surfaced to the component but never written to
the cache, so a key that was absent before stays absent afterwards. -/
theorem fetch_placeholder_rule (w : String) (now : Int) (s0 : CompState)
    (db : CacheDB) (env : FetchEnv) (pl : List String) (link : Option String)
    (hload : s0.definitionsLoading = false) (hdefs : s0.definitions = none)
    (hcur : s0.currentWordId = w)
    (hgap1 : env.gap1 = none)
    (hconn : db.conn = Conn.opened)
    (hread : env.readFail = false) :
    ((∃ e, findEntry w db.store = some e ∧ isPlaceholder e.definitions = true) →
      (fetchDefinitions w now s0 db env).calledApi = true) ∧
    (env.gap2 = none → env.gap3 = none →
      env.api = ApiResponse.ok pl link → isPlaceholder pl = true →
      findEntry w db.store = none →
      (fetchDefinitions w now s0 db env).comp.definitions = some pl ∧
      (fetchDefinitions w now s0 db env).comp.showDefinitions = true ∧
      (fetchDefinitions w now s0 db env).db = db ∧
      findEntry w (fetchDefinitions w now s0 db env).db.store = none) := by
  obtain ⟨conn, store⟩ := db
  simp only at hconn
  subst hconn
  constructor
  · rintro ⟨e, hfind, hpl⟩
    simp only [fetchDefinitions, hload, hdefs, getCachedDefinition, openDB,
      hread, hgap1, hfind, applyGap, hcur]
    simp only [Option.isSome_none, Bool.false_eq_true, or_self, if_false]
    simp [hcur, hpl]
    exact fetchRemotePhase_calledApi _ _ _ _ _
  · intro hgap2 hgap3 hapi hpl hfind
    simp [fetchDefinitions, hload, hdefs, getCachedDefinition, openDB,
      hread, hgap1, hfind, applyGap, hcur, fetchRemotePhase, hgap2, hgap3,
      hapi, hpl, runFinally, runCatch]

/-- C2 witness: a cached placeholder for "zutano" still triggers the remote
request, and a remote placeholder result is surfaced but leaves the key
uncached. -/
theorem fetch_placeholder_rule_witness :
    (fetchDefinitions "zutano" 0 ⟨"zutano", false, none, false, none, none⟩
        ⟨Conn.opened, [⟨"zutano", ["Definition pending..."], none, 0⟩]⟩
        ⟨true, false, false, false, none, none, none, none,
          ApiResponse.ok ["real"] none⟩).calledApi = true ∧
    ((fetchDefinitions "zutano" 0 ⟨"zutano", false, none, false, none, none⟩
        ⟨Conn.opened, []⟩
        ⟨true, false, false, false, none, none, none, none,
          ApiResponse.ok ["Definition pending..."]
            (some "https://dle.rae.es/zutano")⟩).comp.definitions =
        some ["Definition pending..."] ∧
      (fetchDefinitions "zutano" 0 ⟨"zutano", false, none, false, none, none⟩
        ⟨Conn.opened, []⟩
        ⟨true, false, false, false, none, none, none, none,
          ApiResponse.ok ["Definition pending..."]
            (some "https://dle.rae.es/zutano")⟩).comp.showDefinitions = true ∧
      (fetchDefinitions "zutano" 0 ⟨"zutano", false, none, false, none, none⟩
        ⟨Conn.opened, []⟩
        ⟨true, false, false, false, none, none, none, none,
          ApiResponse.ok ["Definition pending..."]
            (some "https://dle.rae.es/zutano")⟩).db = ⟨Conn.opened, []⟩ ∧
      findEntry "zutano" (fetchDefinitions "zutano" 0
        ⟨"zutano", false, none, false, none, none⟩ ⟨Conn.opened, []⟩
        ⟨true, false, false, false, none, none, none, none,
          ApiResponse.ok ["Definition pending..."]
            (some "https://dle.rae.es/zutano")⟩).db.store = none) :=
  ⟨(fetch_placeholder_rule "zutano" 0 ⟨"zutano", false, none, false, none, none⟩
      ⟨Conn.opened, [⟨"zutano", ["Definition pending..."], none, 0⟩]⟩
      ⟨true, false, false, false, none, none, none, none,
        ApiResponse.ok ["real"] none⟩ ["real"] none
      rfl rfl rfl rfl rfl rfl).1
    ⟨⟨"zutano", ["Definition pending..."], none, 0⟩, rfl, by decide⟩,
   (fetch_placeholder_rule "zutano" 0 ⟨"zutano", false, none, false, none, none⟩
      ⟨Conn.opened, []⟩
      ⟨true, false, false, false, none, none, none, none,
        ApiResponse.ok ["Definition pending..."]
          (some "https://dle.rae.es/zutano")⟩
      ["Definition pending..."] (some "https://dle.rae.es/zutano")
      rfl rfl rfl rfl rfl rfl).2 rfl rfl rfl (by decide) rfl⟩

/-- C6 counterexample: on a remote 404 the component lands in the same
error-banner-with-retry rendering used for transient failures (only the
message text differs), so the not-found outcome is not a distinct
no-content state. -/
theorem fetch_notFound_banner_cex :
    renderDefinitionsButton (fetchDefinitions "perro" 0
        ⟨"perro", false, none, false, none, none⟩ ⟨Conn.opened, []⟩
        ⟨true, false, false, false, none, none, none, none,
          ApiResponse.httpError 404⟩).comp =
      DefButtonView.errorBanner "No definitions available" := rfl

/-- C6 (amended): a remote 404 produces the distinct message "No
definitions available" but is surfaced through the same error state and
retry banner as transient failures; a non-404 HTTP failure produces
"Failed to load definitions" and a network error surfaces its own message;
in all three cases nothing is cached. -/
theorem fetch_notFound_distinct (w : String) (now : Int) (s0 : CompState)
    (db : CacheDB) (env : FetchEnv)
    (hload : s0.definitionsLoading = false) (hdefs : s0.definitions = none)
    (hcur : s0.currentWordId = w)
    (hgap1 : env.gap1 = none) (hgap2 : env.gap2 = none)
    (hconn : db.conn = Conn.opened) (hread : env.readFail = false)
    (hfind : findEntry w db.store = none) :
    (env.api = ApiResponse.httpError 404 →
      (fetchDefinitions w now s0 db env).comp.definitionsError =
        some "No definitions available" ∧
      renderDefinitionsButton (fetchDefinitions w now s0 db env).comp =
        DefButtonView.errorBanner "No definitions available" ∧
      (fetchDefinitions w now s0 db env).db = db) ∧
    (∀ st : Nat, st ≠ 404 → env.api = ApiResponse.httpError st →
      (fetchDefinitions w now s0 db env).comp.definitionsError =
        some "Failed to load definitions" ∧
      (fetchDefinitions w now s0 db env).db = db) ∧
    (∀ m : String, m ≠ "" → env.api = ApiResponse.networkError m →
      (fetchDefinitions w now s0 db env).comp.definitionsError = some m ∧
      (fetchDefinitions w now s0 db env).db = db) := by
  obtain ⟨conn, store⟩ := db
  simp only at hconn hfind
  subst hconn
  refine ⟨?_, ?_, ?_⟩
  · intro hapi
    simp [fetchDefinitions, hload, hdefs, getCachedDefinition, openDB, hread,
      hgap1, hfind, applyGap, hcur, fetchRemotePhase, hgap2, hapi, runFinally,
      runCatch, renderDefinitionsButton]
  · intro st hst hapi
    simp [fetchDefinitions, hload, hdefs, getCachedDefinition, openDB, hread,
      hgap1, hfind, applyGap, hcur, fetchRemotePhase, hgap2, hapi, hst,
      runFinally, runCatch]
  · intro m hm hapi
    simp [fetchDefinitions, hload, hdefs, getCachedDefinition, openDB, hread,
      hgap1, hfind, applyGap, hcur, fetchRemotePhase, hgap2, hapi, hm,
      runFinally, runCatch]

/-- C6 witness: the three failure shapes at concrete inputs. -/
theorem fetch_notFound_distinct_witness :
    ((fetchDefinitions "w" 0 ⟨"w", false, none, false, none, none⟩
        ⟨Conn.opened, []⟩
        ⟨true, false, false, false, none, none, none, none,
          ApiResponse.httpError 404⟩).comp.definitionsError =
      some "No definitions available" ∧
      renderDefinitionsButton (fetchDefinitions "w" 0
        ⟨"w", false, none, false, none, none⟩ ⟨Conn.opened, []⟩
        ⟨true, false, false, false, none, none, none, none,
          ApiResponse.httpError 404⟩).comp =
        DefButtonView.errorBanner "No definitions available" ∧
      (fetchDefinitions "w" 0 ⟨"w", false, none, false, none, none⟩
        ⟨Conn.opened, []⟩
        ⟨true, false, false, false, none, none, none, none,
          ApiResponse.httpError 404⟩).db = ⟨Conn.opened, []⟩) ∧
    ((fetchDefinitions "w" 0 ⟨"w", false, none, false, none, none⟩
        ⟨Conn.opened, []⟩
        ⟨true, false, false, false, none, none, none, none,
          ApiResponse.httpError 500⟩).comp.definitionsError =
      some "Failed to load definitions") ∧
    ((fetchDefinitions "w" 0 ⟨"w", false, none, false, none, none⟩
        ⟨Conn.opened, []⟩
        ⟨true, false, false, false, none, none, none, none,
          ApiResponse.networkError "boom"⟩).comp.definitionsError = some "boom") :=
  ⟨(fetch_notFound_distinct "w" 0 ⟨"w", false, none, false, none, none⟩
      ⟨Conn.opened, []⟩
      ⟨true, false, false, false, none, none, none, none,
        ApiResponse.httpError 404⟩
      rfl rfl rfl rfl rfl rfl rfl rfl).1 rfl,
   ((fetch_notFound_distinct "w" 0 ⟨"w", false, none, false, none, none⟩
      ⟨Conn.opened, []⟩
      ⟨true, false, false, false, none, none, none, none,
        ApiResponse.httpError 500⟩
      rfl rfl rfl rfl rfl rfl rfl rfl).2.1 500 (by decide) rfl).1,
   ((fetch_notFound_distinct "w" 0 ⟨"w", false, none, false, none, none⟩
      ⟨Conn.opened, []⟩
      ⟨true, false, false, false, none, none, none, none,
        ApiResponse.networkError "boom"⟩
      rfl rfl rfl rfl rfl rfl rfl rfl).2.2 "boom" (by decide) rfl).1⟩

theorem fetchRemotePhase_stale_gap2 (requested B : String) (now : Int)
    (s2 : CompState) (db1 : CacheDB) (env : FetchEnv)
    (hg2 : env.gap2 = some B) (hne : B ≠ requested) :
    (fetchRemotePhase requested now s2 db1 env).comp = resetForWord B := by
  cases hapi : env.api <;>
    simp [fetchRemotePhase, hg2, hapi, applyGap, resetForWord, runFinally,
      runCatch, hne]

theorem fetchDefinitions_to_remote (w : String) (now : Int) (s0 : CompState)
    (db : CacheDB) (env : FetchEnv)
    (hload : s0.definitionsLoading = false) (hdefs : s0.definitions = none)
    (hcur : s0.currentWordId = w)
    (hgap1 : env.gap1 = none) (hread : env.readFail = false)
    (hmiss : ∀ e, findEntry w db.store = some e →
      isPlaceholder e.definitions = true) :
    fetchDefinitions w now s0 db env =
      fetchRemotePhase w now
        { s0 with definitionsLoading := true, definitionsError := none }
        (getCachedDefinition w now env.openOk false env.touchFail db).2 env := by
  obtain ⟨conn, store⟩ := db
  simp only at hmiss
  cases conn with
  | unopened =>
    cases ho : env.openOk
    · simp [fetchDefinitions, getCachedDefinition, openDB, hload, hdefs,
        hgap1, hread, applyGap, hcur, ho]
    · rcases hf : findEntry w store with _ | e
      · simp [fetchDefinitions, getCachedDefinition, openDB, hload, hdefs,
          hgap1, hread, applyGap, hcur, ho, hf]
      · have hpl := hmiss e hf
        simp [fetchDefinitions, getCachedDefinition, openDB, hload, hdefs,
          hgap1, hread, applyGap, hcur, ho, hf, hpl]
  | failed =>
    simp [fetchDefinitions, getCachedDefinition, openDB, hload, hdefs,
      hgap1, hread, applyGap, hcur]
  | opened =>
    rcases hf : findEntry w store with _ | e
    · simp [fetchDefinitions, getCachedDefinition, openDB, hload, hdefs,
        hgap1, hread, applyGap, hcur, hf]
    · have hpl := hmiss e hf
      simp [fetchDefinitions, getCachedDefinition, openDB, hload, hdefs,
        hgap1, hread, applyGap, hcur, hf, hpl]

/-- C1: staleness guard.  If the active word switches from A to B before
A's resolution result arrives (during the cache-lookup await or during the
remote-fetch await), the arriving result is discarded: the UI-visible state
is exactly the reset state for B, never A's content.  And when the switch
happens only during the cache-write await of a successful non-placeholder
result, the state is still B's reset state but the fetched value has
already been written to the cache under key A. -/
theorem fetch_stale_discard (A B : String) (now : Int) (s0 : CompState)
    (db : CacheDB) (env : FetchEnv) (defs : List String) (link : Option String)
    (hload : s0.definitionsLoading = false) (hdefs : s0.definitions = none)
    (hcur : s0.currentWordId = A)
    (hne : B ≠ A) :
    ((env.gap1 = some B ∨
        (env.gap1 = none ∧ env.readFail = false ∧
          (∀ e, findEntry A db.store = some e →
            isPlaceholder e.definitions = true) ∧
          env.gap2 = some B)) →
      (fetchDefinitions A now s0 db env).comp = resetForWord B) ∧
    (env.gap1 = none → env.gap2 = none → env.gap3 = none → env.gap4 = some B →
      db.conn = Conn.opened → env.readFail = false → env.writeFail = false →
      findEntry A db.store = none → db.store.length < MAX_ENTRIES →
      env.api = ApiResponse.ok defs link → isPlaceholder defs = false →
      (fetchDefinitions A now s0 db env).comp = resetForWord B ∧
      findEntry A (fetchDefinitions A now s0 db env).db.store =
        some ⟨A, defs, link, now⟩) := by
  constructor
  · intro hsw
    rcases hsw with hg1 | ⟨hg1, hrf, hmiss, hg2⟩
    · rcases hget : getCachedDefinition A now env.openOk env.readFail
        env.touchFail db with ⟨r1, db1⟩
      obtain ⟨xv, hxv⟩ := getCachedDefinition_not_error A now env.openOk
        env.readFail env.touchFail db
      rw [hget] at hxv
      simp only at hxv
      subst hxv
      simp [fetchDefinitions, hload, hdefs, hget, hg1, applyGap, resetForWord,
        runFinally, hne]
    · rw [fetchDefinitions_to_remote A now s0 db env hload hdefs hcur hg1
        hrf hmiss]
      exact fetchRemotePhase_stale_gap2 A B now _ _ env hg2 hne
  · intro hg1 hg2 hg3 hg4 hconn hread hwrite hfind hsmall hapi hpl
    obtain ⟨conn, store⟩ := db
    simp only at hconn hfind hsmall
    subst hconn
    have hput : putEntry ⟨A, defs, link, now⟩ store =
        store ++ [⟨A, defs, link, now⟩] :=
      putEntry_of_not_mem _ _ (not_mem_keys_of_findEntry_none hfind)
    have hev : evictIfNeeded (store ++ [⟨A, defs, link, now⟩]) =
        store ++ [⟨A, defs, link, now⟩] := by
      apply evictIfNeeded_of_le
      simp only [List.length_append, List.length_singleton]
      omega
    have hfinal : findEntry A (store ++ [⟨A, defs, link, now⟩]) =
        some ⟨A, defs, link, now⟩ := by
      rw [← hput]
      exact findEntry_putEntry_self ⟨A, defs, link, now⟩ store
    constructor <;>
      simp [fetchDefinitions, hload, hdefs, getCachedDefinition, openDB, hread,
        hg1, hg2, hg3, hg4, applyGap, hcur, fetchRemotePhase, hapi, hpl,
        cacheDefinition, hwrite, hput, hev, runFinally, runCatch, resetForWord,
        hne, hfind, hfinal]

/-- C1 witness: a switch during the fetch await discards the late result,
and a switch during the cache-write await still leaves the fetched value
cached under its own key. -/
theorem fetch_stale_discard_witness :
    (fetchDefinitions "a" 0 ⟨"a", false, none, false, none, none⟩
        ⟨Conn.unopened, []⟩
        ⟨false, false, false, false, some "b", none, none, none,
          ApiResponse.httpError 500⟩).comp = resetForWord "b" ∧
    ((fetchDefinitions "a" 5 ⟨"a", false, none, false, none, none⟩
        ⟨Conn.opened, []⟩
        ⟨true, false, false, false, none, none, none, some "b",
          ApiResponse.ok ["x"] none⟩).comp = resetForWord "b" ∧
      findEntry "a" (fetchDefinitions "a" 5 ⟨"a", false, none, false, none, none⟩
        ⟨Conn.opened, []⟩
        ⟨true, false, false, false, none, none, none, some "b",
          ApiResponse.ok ["x"] none⟩).db.store = some ⟨"a", ["x"], none, 5⟩) :=
  ⟨(fetch_stale_discard "a" "b" 0 ⟨"a", false, none, false, none, none⟩
      ⟨Conn.unopened, []⟩
      ⟨false, false, false, false, some "b", none, none, none,
        ApiResponse.httpError 500⟩ ["x"] none
      rfl rfl rfl (by decide)).1 (Or.inl rfl),
   (fetch_stale_discard "a" "b" 5 ⟨"a", false, none, false, none, none⟩
      ⟨Conn.opened, []⟩
      ⟨true, false, false, false, none, none, none, some "b",
        ApiResponse.ok ["x"] none⟩ ["x"] none
      rfl rfl rfl (by decide)).2 rfl rfl rfl rfl rfl rfl rfl rfl
      (by decide) rfl (by decide)⟩
